import Mathlib

/-!
# Verification of `TimedCache` (src/utils/containers.py)

A shallow embedding of the `TimedCache` class: a mutable mapping whose
entries schedule their own deletion on the asyncio event loop.

Modelling choices:
* Python values (keys, stored values, `get` defaults) are modelled by the
  inductive `PyVal`; seconds and clock instants are modelled by `Int` (the
  code uses Python floats; no claim depends on fractional seconds or on
  floating-point rounding).
* A `TimedCache` object together with the event loop's pending tasks is a
  `Sys`: the `storage` dict is an insertion-ordered association list, the
  tasks created by `loop.create_task` are a list indexed by creation order,
  and `clock` is the current time of the loop.
* Each operation is translated statement by statement from the source.
  Exceptions are modelled by `PyErr`; an operation returns the state the
  Python object is left in, together with the exception raised, if any.
* The asyncio semantics used for the timer model: a task created for
  `_timed_del` sleeps until `fireAt`, then (in one atomic step, since the
  coroutine has no `await` between the sleep and the `pop`) pops its key;
  `Task.cancel()` called before the task resumes prevents the pop from ever
  running (the coroutine receives `CancelledError` at its `await` point).
  This is captured by the `Step.fire` rule, which requires the task to be
  neither cancelled nor finished.
-/

/-- Python exceptions that can arise in the translated code paths. -/
inductive PyErr where
  | typeError
  | valueError
  | keyError
  | attributeError
deriving DecidableEq

instance {ε α : Type} [DecidableEq ε] [DecidableEq α] : DecidableEq (Except ε α) := fun a b =>
  match a, b with
  | .ok x, .ok y =>
      if h : x = y then .isTrue (by rw [h]) else .isFalse (by simp [h])
  | .error x, .error y =>
      if h : x = y then .isTrue (by rw [h]) else .isFalse (by simp [h])
  | .ok _, .error _ => .isFalse (by simp)
  | .error _, .ok _ => .isFalse (by simp)

/-- Python values: the keys, stored values and defaults handled by the cache.
`tuple2` is a Python 2-tuple (the only tuple shape the cache manipulates:
the stored `(value, task)` pair); `taskRef` stands for an `asyncio.Task`
object held in the stored tuple. -/
inductive PyVal where
  | int (n : Int)
  | str (s : String)
  | pynone
  | tuple2 (a b : PyVal)
  | taskRef (tid : Nat)
deriving DecidableEq

/-- Python truthiness of a `PyVal`: `0`, `""` and `None` are falsy;
a non-empty tuple and a task object are truthy. -/
def PyVal.truthy : PyVal → Bool
  | .int n => n != 0
  | .str s => s != ""
  | .pynone => false
  | .tuple2 _ _ => true
  | .taskRef _ => true

/-- Python subscripting `value[0]`: first element of a tuple, first character
of a string; raises `TypeError` on ints, `None` and task objects (and the
empty string raises; the exact exception class is irrelevant to the claims:
what matters is that it is a raise). -/
def PyVal.sub0 : PyVal → Except PyErr PyVal
  | .tuple2 a _ => .ok a
  | .str s => if s = "" then .error .typeError else .ok (.str (s.take 1))
  | .int _ => .error .typeError
  | .pynone => .error .typeError
  | .taskRef _ => .error .typeError

/-- The `delay` argument of `_convert_delay`:
a `timedelta` (carrying its `total_seconds()`), a `datetime` (carrying its
timestamp and whether it is timezone-aware), a raw number, or `None`. -/
inductive Delay where
  | td (seconds : Int)
  | dt (t : Int) (aware : Bool)
  | num (n : Int)
  | none
deriving DecidableEq

/-- `datetime.now(tz=timezone.utc) - delay` for a `datetime` argument:
aware − aware subtracts the timestamps; aware − naive raises `TypeError`
in Python (not `ValueError`). -/
def datetimeSubNow (now : Int) (t : Int) (aware : Bool) : Except PyErr Int :=
  if aware then .ok (now - t) else .error .typeError

/-- A `try: body except ValueError: handler` block: only `ValueError`
is caught, every other exception propagates. -/
def tryExceptValueError (body handler : Except PyErr Int) : Except PyErr Int :=
  match body with
  | .error .valueError => handler
  | r => r

/-- Reading `self.timeout`: `AttributeError` when the attribute has not been
set yet (as in `__init__`, where `_convert_delay` runs before the assignment
to `self.timeout`). -/
def selfTimeout (tmo : Option Int) : Except PyErr Int :=
  match tmo with
  | Option.some t => .ok t
  | Option.none => .error .attributeError

/-- `TimedCache._convert_delay`, translated clause by clause.
`tmo` is the value of `self.timeout` if set (`none` inside `__init__`),
`now` the current wall-clock time.

```python
if isinstance(delay, timedelta):
    return delay.total_seconds()
elif isinstance(delay, datetime):
    try:  # accepts both offset aware and naive timestamps
        return (datetime.now(tz=timezone.utc) - delay).total_seconds()
    except ValueError:
        return (datetime.utcnow - delay).total_seconds()
return delay or self.timeout
```
The `except` handler subtracts a `datetime` from the *function object*
`datetime.utcnow` (missing call parentheses), which is itself a `TypeError`;
and the handler is unreachable anyway because aware − naive subtraction
raises `TypeError`, which `except ValueError` does not catch. -/
def convert_delay (tmo : Option Int) (now : Int) : Delay → Except PyErr Int
  | .td s => .ok s
  | .dt t aware => tryExceptValueError (datetimeSubNow now t aware) (.error .typeError)
  | .num n => if n = 0 then selfTimeout tmo else .ok n
  | .none => selfTimeout tmo

/-- A stored entry: the tuple `(value, task)` placed in `self.storage`.
`writtenAt` and `eff` are ghost instrumentation (not present in the Python
tuple): the loop time of the write that installed the entry, and the sleep
delay handed to `async_sleep` for its task. -/
structure Entry where
  value : PyVal
  task : Nat
  writtenAt : Int
  eff : Int
deriving DecidableEq

/-- One task created by `loop.create_task(self._timed_del(...))`.
`fireAt` is the loop time at which its `async_sleep` completes;
`cancelled` is set by `Task.cancel()`; `done` is set when the coroutine has
run to completion (or raised). -/
structure TaskRec where
  key : PyVal
  fireAt : Int
  cancelled : Bool
  done : Bool
deriving DecidableEq

/-- A `TimedCache` object together with its event loop's tasks and clock. -/
structure Sys where
  timeout : Int
  storage : List (PyVal × Entry)
  tasks : List TaskRec
  clock : Int
deriving DecidableEq

/-- `self.storage.get(key)` / `self.storage[key]` as an Option:
first (and, under the dict invariant, only) binding of `key`. -/
def lookupA : List (PyVal × Entry) → PyVal → Option Entry
  | [], _ => Option.none
  | (k, e) :: rest, key => if k = key then Option.some e else lookupA rest key

/-- `self.storage.pop(key, None)`: the removed entry (if any) and the
remaining storage. -/
def popA : List (PyVal × Entry) → PyVal → Option Entry × List (PyVal × Entry)
  | [], _ => (Option.none, [])
  | (k, e) :: rest, key =>
    if k = key then (Option.some e, rest)
    else
      let r := popA rest key
      (r.1, (k, e) :: r.2)

/-- `del self.storage[key]`: same storage as `pop`, discarding the entry. -/
def removeA (l : List (PyVal × Entry)) (key : PyVal) : List (PyVal × Entry) :=
  (popA l key).2

/-- Update the task at index `i` (used for `.cancel()` and for completion). -/
def modifyTask (f : TaskRec → TaskRec) : List TaskRec → Nat → List TaskRec
  | [], _ => []
  | t :: ts, 0 => f t :: ts
  | t :: ts, n + 1 => t :: modifyTask f ts n

/-- `task.cancel()` on task `i`. -/
def cancelTask (ts : List TaskRec) (i : Nat) : List TaskRec :=
  modifyTask (fun t => { t with cancelled := true }) ts i

/-- `TimedCache.__init__(timeout=...)`: `self.timeout = self._convert_delay(timeout)`
runs *before* `self.timeout` exists, so the fallback `delay or self.timeout`
raises `AttributeError` for a zero/`None` argument.  The keyword default is
`timeout=600`, i.e. an omitted argument is `Delay.num 600`.  No sign check is
performed.  `self.storage = {}`; the loop starts with no tasks. -/
def TimedCache.init (now : Int) (timeout : Delay) : Except PyErr Sys :=
  match convert_delay Option.none now timeout with
  | .error e => .error e
  | .ok t => .ok { timeout := t, storage := [], tasks := [], clock := now }

/-- `TimedCache.__setitem__(key, value, *, timeout=None)`:

```python
if old_val := self.storage.pop(key, None):
    old_val[1].cancel()
task = self._timed_del(key, timeout=self._convert_delay(timeout))
self.storage[key] = (value, self.loop.create_task(task))
```
The walrus value `old_val` is the stored 2-tuple `(value, task)`, which is
always truthy, so an existing key's task is always cancelled.  The pop and
cancel happen before `_convert_delay`, so a conversion error leaves the old
entry removed and its task cancelled.  `_timed_del` sleeps
`timeout or self.timeout`, i.e. a converted delay of `0` falls back to the
default.  The new task is appended (`create_task`), and the re-inserted key
goes to the end of the dict's insertion order. -/
def Sys.setitem (s : Sys) (key value : PyVal) (timeout : Delay) : Sys × Option PyErr :=
  let old := popA s.storage key
  let tasks1 :=
    match old.1 with
    | Option.some e => cancelTask s.tasks e.task
    | Option.none => s.tasks
  match convert_delay (Option.some s.timeout) s.clock timeout with
  | .error err => ({ s with storage := old.2, tasks := tasks1 }, Option.some err)
  | .ok conv =>
      let sleep := if conv = 0 then s.timeout else conv
      let tid := tasks1.length
      let t : TaskRec := { key := key, fireAt := s.clock + sleep, cancelled := false, done := false }
      ({ s with
          storage := old.2 ++ [(key, ⟨value, tid, s.clock, sleep⟩)],
          tasks := tasks1 ++ [t] }, Option.none)

/-- `TimedCache.set(key, value, timeout=None)`:
`self.__setitem__(key, value, timeout=self._convert_delay(timeout))`;
the per-call timeout is converted once here and once more inside
`__setitem__` (where the already-numeric value hits the `delay or
self.timeout` clause). -/
def Sys.set (s : Sys) (key value : PyVal) (timeout : Delay) : Sys × Option PyErr :=
  match convert_delay (Option.some s.timeout) s.clock timeout with
  | .error err => (s, Option.some err)
  | .ok conv => s.setitem key value (.num conv)

/-- `TimedCache.__delitem__(key)`:
`self.storage[key][1].cancel()` raises `KeyError` when absent (before any
mutation); otherwise the task is cancelled and then `del self.storage[key]`. -/
def Sys.delitem (s : Sys) (key : PyVal) : Sys × Option PyErr :=
  match lookupA s.storage key with
  | Option.none => (s, Option.some .keyError)
  | Option.some e =>
      ({ s with tasks := cancelTask s.tasks e.task, storage := removeA s.storage key },
        Option.none)

/-- The stored tuple `(value, task)` as a Python value, as seen by `get`. -/
def entryPy (e : Entry) : PyVal := .tuple2 e.value (.taskRef e.task)

/-- `TimedCache.get(key, default=None)`:

```python
value = self.storage.get(key, default)
return value[0] if value else default
```
When the key is present, `value` is the stored 2-tuple — always truthy — and
`value[0]` is the stored value.  When the key is absent, `value` is the
*default itself*: a falsy default is returned as-is, but a truthy default is
subscripted (`default[0]`), returning its first element or raising. -/
def Sys.get (s : Sys) (key default : PyVal) : Except PyErr PyVal :=
  let value :=
    match lookupA s.storage key with
    | Option.some e => entryPy e
    | Option.none => default
  if value.truthy then value.sub0 else .ok default

/-- `TimedCache.__getitem__(key)`: `return self.storage[key][0]`;
raises `KeyError` when the key is absent. -/
def Sys.getitem (s : Sys) (key : PyVal) : Except PyErr PyVal :=
  match lookupA s.storage key with
  | Option.none => .error .keyError
  | Option.some e => (entryPy e).sub0

/-- `TimedCache.__iter__`: `iter({k: v[0] for k, v in self.storage.items()})`.
The comprehension builds a fresh dict keyed like `storage` (keys are unique),
and iterating a dict yields its *keys* in insertion order — the computed
values `v[0]` are discarded by the iteration.  The result is a snapshot list,
unaffected by later mutation of the cache. -/
def Sys.iter (s : Sys) : List PyVal :=
  s.storage.map fun kv => kv.1

/-- What the specification says iteration yields: the `(key, value)` pairs of
the map.  Stated as a `PyVal` list so it can be compared with `Sys.iter`. -/
def specIterPairs (s : Sys) : List PyVal :=
  s.storage.map fun kv => .tuple2 kv.1 kv.2.value

/-- The body of `_timed_del(key, timeout)` after its sleep completes:
`self.storage.pop(key)` — *no* default and no re-validation, so a `KeyError`
is raised if the key is absent.  In either case the coroutine finishes, so
the task is marked done. -/
def Sys.fireTask (s : Sys) (tid : Nat) : Sys × Option PyErr :=
  match s.tasks.get? tid with
  | Option.none => (s, Option.none)
  | Option.some t =>
      let popped := popA s.storage t.key
      let s' := { s with
        storage := popped.2,
        tasks := modifyTask (fun u => { u with done := true }) s.tasks tid }
      match popped.1 with
      | Option.some _ => (s', Option.none)
      | Option.none => (s', Option.some .keyError)

/-- One step of the system: a caller invokes `__setitem__` (subscript
assignment), `set`, or `del`; or a live task whose sleep has elapsed resumes
and runs its pop; or time passes.  `Step.fire` requires the task to be
neither cancelled nor done: `Task.cancel()` before resumption prevents the
pop (asyncio delivers `CancelledError` at the `await`), and the sleep-return
and pop are one atomic resumption of the single-threaded loop. -/
inductive Step : Sys → Sys → Prop where
  | setitem (s : Sys) (key value : PyVal) (tmo : Delay) :
      Step s (s.setitem key value tmo).1
  | set (s : Sys) (key value : PyVal) (tmo : Delay) :
      Step s (s.set key value tmo).1
  | del (s : Sys) (key : PyVal) :
      Step s (s.delitem key).1
  | fire (s : Sys) (tid : Nat) (t : TaskRec)
      (hget : s.tasks.get? tid = Option.some t)
      (hcanc : t.cancelled = false) (hdone : t.done = false)
      (htime : t.fireAt ≤ s.clock) :
      Step s (s.fireTask tid).1
  | tick (s : Sys) (d : Int) (hd : 0 ≤ d) :
      Step s { s with clock := s.clock + d }

/-- Zero or more steps. -/
inductive Steps : Sys → Sys → Prop where
  | refl (s : Sys) : Steps s s
  | tail {s s' s'' : Sys} : Steps s s' → Step s' s'' → Steps s s''

/-- States reachable from a freshly constructed cache. -/
inductive Reachable : Sys → Prop where
  | init (now : Int) (tmo : Delay) (s : Sys)
      (h : TimedCache.init now tmo = .ok s) : Reachable s
  | step {s s' : Sys} (h : Reachable s) (hs : Step s s') : Reachable s'

/-- The system invariant relating the storage dict and the loop's tasks:
storage keys are unique (it is a dict); every stored entry's task is live
(neither cancelled nor done), belongs to that key, and is scheduled to fire
exactly `eff` time units after the write that installed the entry; and every
live task is the task of the entry currently stored under its key. -/
def CacheInv (s : Sys) : Prop :=
  ((s.storage.map Prod.fst).Nodup ∧
    ∀ k e, lookupA s.storage k = Option.some e →
      ∃ t, s.tasks.get? e.task = Option.some t ∧ t.key = k ∧ t.cancelled = false ∧
        t.done = false ∧ t.fireAt = e.writtenAt + e.eff) ∧
  ∀ tid t, s.tasks.get? tid = Option.some t → t.cancelled = false → t.done = false →
    ∃ e, lookupA s.storage t.key = Option.some e ∧ e.task = tid

/-- The cache produced by `TimedCache(timeout=600)` on a loop whose clock
starts at `0`. -/
def sys0 : Sys := { timeout := 600, storage := [], tasks := [], clock := 0 }

/-- `sys0` after `cache["a"] = 1`. -/
def sys1 : Sys := (sys0.setitem (.str "a") (.int 1) Delay.none).1

/-- `sys1` after `cache["z"] = 0` and `cache["e"] = ""` (falsy values). -/
def sys2 : Sys :=
  (((sys1.setitem (.str "z") (.int 0) Delay.none).1).setitem (.str "e") (.str "") Delay.none).1

/-! ### Association-list and task-list lemmas -/

theorem popA_fst (l : List (PyVal × Entry)) (key : PyVal) :
    (popA l key).1 = lookupA l key := by
  induction l with
  | nil => rfl
  | cons p rest ih =>
    obtain ⟨k, e⟩ := p
    by_cases h : k = key <;> simp [popA, lookupA, h, ih]

theorem lookupA_eq_none_iff (l : List (PyVal × Entry)) (key : PyVal) :
    lookupA l key = Option.none ↔ key ∉ l.map Prod.fst := by
  induction l with
  | nil => simp [lookupA]
  | cons p rest ih =>
    obtain ⟨k, e⟩ := p
    by_cases h : k = key
    · subst h; simp [lookupA]
    · simp [lookupA, h, ih, Ne.symm h]

theorem lookupA_popA_ne (l : List (PyVal × Entry)) (key k' : PyVal) (h : k' ≠ key) :
    lookupA (popA l key).2 k' = lookupA l k' := by
  induction l with
  | nil => rfl
  | cons p rest ih =>
    obtain ⟨k, e⟩ := p
    by_cases hk : k = key
    · subst hk; simp [popA, lookupA, Ne.symm h]
    · simp [popA, lookupA, hk, ih]

theorem lookupA_popA_self (l : List (PyVal × Entry)) (key : PyVal)
    (h : (l.map Prod.fst).Nodup) : lookupA (popA l key).2 key = Option.none := by
  induction l with
  | nil => rfl
  | cons p rest ih =>
    obtain ⟨k, e⟩ := p
    rw [List.map_cons, List.nodup_cons] at h
    by_cases hk : k = key
    · subst hk
      simp only [popA, if_pos rfl]
      exact (lookupA_eq_none_iff rest k).2 h.1
    · simp only [popA, if_neg hk, lookupA]
      exact ih h.2

theorem keys_popA_sublist (l : List (PyVal × Entry)) (key : PyVal) :
    ((popA l key).2.map Prod.fst).Sublist (l.map Prod.fst) := by
  induction l with
  | nil => simp [popA]
  | cons p rest ih =>
    obtain ⟨k, e⟩ := p
    by_cases hk : k = key
    · simp only [popA, if_pos hk, List.map_cons]
      exact List.Sublist.cons _ (List.Sublist.refl _)
    · simp only [popA, if_neg hk, List.map_cons]
      exact List.Sublist.cons₂ _ ih

theorem lookupA_append_some {l₁ l₂ : List (PyVal × Entry)} {k : PyVal} {e : Entry}
    (h : lookupA l₁ k = Option.some e) :
    lookupA (l₁ ++ l₂) k = Option.some e := by
  induction l₁ with
  | nil => simp [lookupA] at h
  | cons p rest ih =>
    obtain ⟨k', e'⟩ := p
    by_cases hk : k' = k
    · simp only [lookupA, if_pos hk] at h ⊢; exact h
    · simp only [lookupA, if_neg hk] at h ⊢; exact ih h

theorem lookupA_append_none {l₁ l₂ : List (PyVal × Entry)} {k : PyVal}
    (h : lookupA l₁ k = Option.none) :
    lookupA (l₁ ++ l₂) k = lookupA l₂ k := by
  induction l₁ with
  | nil => simp [lookupA]
  | cons p rest ih =>
    obtain ⟨k', e'⟩ := p
    by_cases hk : k' = k
    · rw [lookupA, if_pos hk] at h
      exact Option.noConfusion h
    · simp only [lookupA, if_neg hk] at h ⊢; exact ih h

theorem lookupA_singleton (key k : PyVal) (e : Entry) :
    lookupA [(key, e)] k = if key = k then Option.some e else Option.none := rfl

theorem length_modifyTask (f : TaskRec → TaskRec) (l : List TaskRec) (i : Nat) :
    (modifyTask f l i).length = l.length := by
  induction l generalizing i with
  | nil => rfl
  | cons t ts ih =>
    cases i with
    | zero => rfl
    | succ i => simp [modifyTask, ih]

theorem get?_modifyTask (f : TaskRec → TaskRec) (l : List TaskRec) (i j : Nat) :
    (modifyTask f l i).get? j = if j = i then (l.get? j).map f else l.get? j := by
  induction l generalizing i j with
  | nil => simp [modifyTask]
  | cons t ts ih =>
    cases i with
    | zero =>
      cases j with
      | zero => simp [modifyTask]
      | succ j => simp [modifyTask]
    | succ i =>
      cases j with
      | zero => simp [modifyTask]
      | succ j => simpa [modifyTask] using ih i j

theorem get?_append_left {l₁ l₂ : List TaskRec} {i : Nat} (h : i < l₁.length) :
    (l₁ ++ l₂).get? i = l₁.get? i := by
  induction l₁ generalizing i with
  | nil => simp at h
  | cons t ts ih =>
    cases i with
    | zero => rfl
    | succ i => simpa using ih (Nat.lt_of_succ_lt_succ h)

theorem get?_append_length {l : List TaskRec} {t : TaskRec} :
    (l ++ [t]).get? l.length = Option.some t := by
  induction l with
  | nil => rfl
  | cons u us ih => simp [ih]

theorem get?_lt_length {l : List TaskRec} {i : Nat} {t : TaskRec}
    (h : l.get? i = Option.some t) : i < l.length := by
  induction l generalizing i with
  | nil => simp at h
  | cons u us ih =>
    cases i with
    | zero => simp
    | succ i =>
      have := ih (i := i) (by simpa using h)
      simpa using this

/-! ### Invariant preservation -/

theorem cacheInv_init (now : Int) (tmo : Delay) (s : Sys)
    (h : TimedCache.init now tmo = .ok s) : CacheInv s := by
  unfold TimedCache.init at h
  cases hconv : convert_delay Option.none now tmo with
  | error e => rw [hconv] at h; cases h
  | ok t =>
      rw [hconv] at h
      injection h with h
      subst h
      refine ⟨⟨by simp, ?_⟩, ?_⟩
      · intro k e hk; exact Option.noConfusion hk
      · intro tid t hget; exact Option.noConfusion hget

theorem cacheInv_after_pop_cancel (s : Sys) (key : PyVal) (h : CacheInv s)
    (tasks1 : List TaskRec)
    (h1 : ((popA s.storage key).1 = Option.none ∧ tasks1 = s.tasks) ∨
      (∃ eold, (popA s.storage key).1 = Option.some eold ∧
        tasks1 = cancelTask s.tasks eold.task)) :
    CacheInv { s with storage := (popA s.storage key).2, tasks := tasks1 } := by
  obtain ⟨⟨hnod, hstore⟩, htask⟩ := h
  refine ⟨⟨(keys_popA_sublist s.storage key).nodup hnod, ?_⟩, ?_⟩
  · intro k e hk
    have hkne : k ≠ key := by
      intro heq; rw [heq, lookupA_popA_self _ _ hnod] at hk; exact Option.noConfusion hk
    rw [lookupA_popA_ne _ _ _ hkne] at hk
    obtain ⟨t, hget, htkey, hcanc, hdone, hfire⟩ := hstore k e hk
    rcases h1 with ⟨holdn, rfl⟩ | ⟨eold, holds, rfl⟩
    · exact ⟨t, hget, htkey, hcanc, hdone, hfire⟩
    · have hne : e.task ≠ eold.task := by
        intro heq
        have hkold : lookupA s.storage key = Option.some eold := by
          rw [← popA_fst]; exact holds
        obtain ⟨t2, hget2, ht2key, _, _, _⟩ := hstore key eold hkold
        rw [heq, hget2] at hget
        injection hget with h3
        rw [h3] at ht2key
        exact hkne (htkey.symm.trans ht2key)
      refine ⟨t, ?_, htkey, hcanc, hdone, hfire⟩
      rw [cancelTask, get?_modifyTask, if_neg hne]
      exact hget
  · intro tid t hget hcanc hdone
    rcases h1 with ⟨holdn, rfl⟩ | ⟨eold, holds, rfl⟩
    · obtain ⟨e, he, het⟩ := htask tid t hget hcanc hdone
      have hkey : t.key ≠ key := by
        intro heq
        rw [heq, ← popA_fst, holdn] at he
        exact Option.noConfusion he
      exact ⟨e, by rw [lookupA_popA_ne _ _ _ hkey]; exact he, het⟩
    · have htid : tid ≠ eold.task := by
        intro heq
        subst heq
        rw [cancelTask, get?_modifyTask, if_pos rfl] at hget
        cases horig : s.tasks.get? eold.task with
        | none => rw [horig] at hget; exact Option.noConfusion hget
        | some orig =>
            rw [horig] at hget
            injection hget with h3
            rw [← h3] at hcanc
            exact Bool.noConfusion hcanc
      rw [cancelTask, get?_modifyTask, if_neg htid] at hget
      obtain ⟨e, he, het⟩ := htask tid t hget hcanc hdone
      have hkey : t.key ≠ key := by
        intro heq
        have hkold : lookupA s.storage key = Option.some eold := by
          rw [← popA_fst]; exact holds
        rw [heq, hkold] at he
        injection he with h4
        rw [h4] at htid
        exact htid het.symm
      exact ⟨e, by rw [lookupA_popA_ne _ _ _ hkey]; exact he, het⟩

theorem cacheInv_append (s : Sys) (key value : PyVal) (w eff : Int)
    (h : CacheInv s) (hnone : lookupA s.storage key = Option.none) :
    CacheInv { s with
      storage := s.storage ++ [(key, ⟨value, s.tasks.length, w, eff⟩)],
      tasks := s.tasks ++ [⟨key, w + eff, false, false⟩] } := by
  obtain ⟨⟨hnod, hstore⟩, htask⟩ := h
  refine ⟨⟨?_, ?_⟩, ?_⟩
  · rw [List.map_append]
    refine hnod.append (by simp) ?_
    intro a ha hb
    simp only [List.map_cons, List.map_nil, List.mem_singleton] at hb
    subst hb
    exact (lookupA_eq_none_iff _ _).1 hnone ha
  · intro k e hk
    cases hsk : lookupA s.storage k with
    | none =>
        rw [lookupA_append_none hsk, lookupA_singleton] at hk
        by_cases hkk : key = k
        · rw [if_pos hkk] at hk
          injection hk with he
          subst hkk
          refine ⟨⟨key, w + eff, false, false⟩, ?_, rfl, rfl, rfl, ?_⟩
          · rw [← he]
            exact get?_append_length
          · rw [← he]
        · rw [if_neg hkk] at hk
          exact Option.noConfusion hk
    | some e0 =>
        rw [lookupA_append_some hsk] at hk
        injection hk with he
        subst he
        obtain ⟨t, hget, htkey, hcanc, hdone, hfire⟩ := hstore k e0 hsk
        exact ⟨t, by rw [get?_append_left (get?_lt_length hget)]; exact hget,
          htkey, hcanc, hdone, hfire⟩
  · intro tid t hget hcanc hdone
    by_cases htid : tid < s.tasks.length
    · rw [get?_append_left htid] at hget
      obtain ⟨e, he, het⟩ := htask tid t hget hcanc hdone
      exact ⟨e, lookupA_append_some he, het⟩
    · rcases Nat.eq_or_lt_of_le (Nat.le_of_not_lt htid) with heq | hlt
      · rw [← heq] at hget
        rw [get?_append_length] at hget
        injection hget with ht
        subst ht
        refine ⟨⟨value, s.tasks.length, w, eff⟩, ?_, heq⟩
        rw [lookupA_append_none hnone, lookupA_singleton, if_pos rfl]
      · have : (s.tasks ++ [(⟨key, w + eff, false, false⟩ : TaskRec)]).get? tid =
            Option.none := by
          rw [List.get?_eq_none]
          simpa using hlt
        rw [this] at hget
        exact Option.noConfusion hget

theorem cacheInv_setitem (s : Sys) (key value : PyVal) (tmo : Delay) (h : CacheInv s) :
    CacheInv (s.setitem key value tmo).1 := by
  have hnod := h.1.1
  simp only [Sys.setitem]
  cases hconv : convert_delay (Option.some s.timeout) s.clock tmo with
  | error err =>
      simp only [hconv]
      cases hold : (popA s.storage key).1 with
      | none =>
          simp only [hold]
          exact cacheInv_after_pop_cancel s key h _ (Or.inl ⟨hold, rfl⟩)
      | some eold =>
          simp only [hold]
          exact cacheInv_after_pop_cancel s key h _ (Or.inr ⟨eold, hold, rfl⟩)
  | ok conv =>
      simp only [hconv]
      cases hold : (popA s.storage key).1 with
      | none =>
          simp only [hold]
          have h1 := cacheInv_after_pop_cancel s key h s.tasks (Or.inl ⟨hold, rfl⟩)
          exact cacheInv_append { s with storage := (popA s.storage key).2, tasks := s.tasks }
            key value s.clock (if conv = 0 then s.timeout else conv) h1
            (lookupA_popA_self _ _ hnod)
      | some eold =>
          simp only [hold]
          have h1 := cacheInv_after_pop_cancel s key h (cancelTask s.tasks eold.task)
            (Or.inr ⟨eold, hold, rfl⟩)
          exact cacheInv_append
            { s with storage := (popA s.storage key).2, tasks := cancelTask s.tasks eold.task }
            key value s.clock (if conv = 0 then s.timeout else conv) h1
            (lookupA_popA_self _ _ hnod)

theorem cacheInv_set (s : Sys) (key value : PyVal) (tmo : Delay) (h : CacheInv s) :
    CacheInv (s.set key value tmo).1 := by
  simp only [Sys.set]
  cases hconv : convert_delay (Option.some s.timeout) s.clock tmo with
  | error err => simpa only [hconv] using h
  | ok conv =>
      simp only [hconv]
      exact cacheInv_setitem s key value (.num conv) h

theorem cacheInv_delitem (s : Sys) (key : PyVal) (h : CacheInv s) :
    CacheInv (s.delitem key).1 := by
  simp only [Sys.delitem]
  cases hl : lookupA s.storage key with
  | none => simpa only [hl] using h
  | some e =>
      simp only [hl]
      exact cacheInv_after_pop_cancel s key h _
        (Or.inr ⟨e, by rw [popA_fst]; exact hl, rfl⟩)

theorem cacheInv_fire (s : Sys) (tid : Nat) (t : TaskRec) (h : CacheInv s)
    (hget : s.tasks.get? tid = Option.some t)
    (hcanc : t.cancelled = false) (hdone : t.done = false) :
    CacheInv (s.fireTask tid).1 := by
  obtain ⟨⟨hnod, hstore⟩, htask⟩ := h
  obtain ⟨e, he, het⟩ := htask tid t hget hcanc hdone
  simp only [Sys.fireTask, hget]
  have hS : CacheInv { s with
      storage := (popA s.storage t.key).2,
      tasks := modifyTask (fun u => { u with done := true }) s.tasks tid } := by
    refine ⟨⟨(keys_popA_sublist s.storage t.key).nodup hnod, ?_⟩, ?_⟩
    · intro k e2 hk2
      have hkne : k ≠ t.key := by
        intro heq
        rw [heq, lookupA_popA_self _ _ hnod] at hk2
        exact Option.noConfusion hk2
      rw [lookupA_popA_ne _ _ _ hkne] at hk2
      obtain ⟨t2, hget2, ht2key, hc2, hd2, hf2⟩ := hstore k e2 hk2
      have hne : e2.task ≠ tid := by
        intro heq
        rw [heq, hget] at hget2
        injection hget2 with h3
        rw [← h3] at ht2key
        exact hkne ht2key.symm
      rw [get?_modifyTask, if_neg hne]
      exact ⟨t2, hget2, ht2key, hc2, hd2, hf2⟩
    · intro tid2 t2 hget2 hc2 hd2
      rw [get?_modifyTask] at hget2
      by_cases h2 : tid2 = tid
      · rw [if_pos h2, h2, hget] at hget2
        injection hget2 with h3
        rw [← h3] at hd2
        exact Bool.noConfusion hd2
      · rw [if_neg h2] at hget2
        obtain ⟨e2, he2, het2⟩ := htask tid2 t2 hget2 hc2 hd2
        have hkne : t2.key ≠ t.key := by
          intro heq
          rw [heq, he] at he2
          injection he2 with h4
          rw [← h4] at het2
          exact h2 (het2 ▸ het ▸ rfl)
        exact ⟨e2, by rw [lookupA_popA_ne _ _ _ hkne]; exact he2, het2⟩
  cases hpop : (popA s.storage t.key).1 <;> simp only [hpop] <;> exact hS

theorem cacheInv_step {s s2 : Sys} (hs : Step s s2) (h : CacheInv s) : CacheInv s2 := by
  cases hs with
  | setitem key value tmo => exact cacheInv_setitem s key value tmo h
  | set key value tmo => exact cacheInv_set s key value tmo h
  | del key => exact cacheInv_delitem s key h
  | fire tid t hget hcanc hdone htime => exact cacheInv_fire s tid t h hget hcanc hdone
  | tick d hd => exact h

theorem cacheInv_reachable {s : Sys} (h : Reachable s) : CacheInv s := by
  induction h with
  | init now tmo s h => exact cacheInv_init now tmo s h
  | step h hs ih => exact cacheInv_step hs ih

/-! ### Cancellation is permanent -/

theorem get?_cancelTask_stable {ts : List TaskRec} {tid i : Nat} {t : TaskRec}
    (hget : ts.get? tid = Option.some t) (hc : t.cancelled = true) :
    ∃ u, (cancelTask ts i).get? tid = Option.some u ∧ u.cancelled = true := by
  rw [cancelTask, get?_modifyTask]
  by_cases h : tid = i
  · rw [if_pos h, hget]; exact ⟨_, rfl, rfl⟩
  · rw [if_neg h]; exact ⟨t, hget, hc⟩

theorem get?_markDone_stable {ts : List TaskRec} {tid i : Nat} {t : TaskRec}
    (hget : ts.get? tid = Option.some t) (hc : t.cancelled = true) :
    ∃ u, (modifyTask (fun v => { v with done := true }) ts i).get? tid = Option.some u ∧
      u.cancelled = true := by
  rw [get?_modifyTask]
  by_cases h : tid = i
  · rw [if_pos h, hget]; exact ⟨_, rfl, hc⟩
  · rw [if_neg h]; exact ⟨t, hget, hc⟩

theorem cancelled_stable_setitem (s : Sys) (key value : PyVal) (tmo : Delay)
    (tid : Nat) (t : TaskRec) (hget : s.tasks.get? tid = Option.some t)
    (hc : t.cancelled = true) :
    ∃ u, ((s.setitem key value tmo).1).tasks.get? tid = Option.some u ∧
      u.cancelled = true := by
  simp only [Sys.setitem]
  cases hconv : convert_delay (Option.some s.timeout) s.clock tmo with
  | error err =>
      simp only [hconv]
      cases hold : (popA s.storage key).1 with
      | none => simp only [hold]; exact ⟨t, hget, hc⟩
      | some eold => simp only [hold]; exact get?_cancelTask_stable hget hc
  | ok conv =>
      simp only [hconv]
      cases hold : (popA s.storage key).1 with
      | none =>
          simp only [hold]
          exact ⟨t, by rw [get?_append_left (get?_lt_length hget)]; exact hget, hc⟩
      | some eold =>
          simp only [hold]
          obtain ⟨u, hu, hcu⟩ := get?_cancelTask_stable (i := eold.task) hget hc
          refine ⟨u, ?_, hcu⟩
          rw [get?_append_left ?_]
          · exact hu
          · rw [cancelTask, length_modifyTask]
            exact get?_lt_length hget

theorem cancelled_mono_step {s s2 : Sys} (hs : Step s s2) (tid : Nat) (t : TaskRec)
    (hget : s.tasks.get? tid = Option.some t) (hc : t.cancelled = true) :
    ∃ u, s2.tasks.get? tid = Option.some u ∧ u.cancelled = true := by
  cases hs with
  | setitem key value tmo => exact cancelled_stable_setitem s key value tmo tid t hget hc
  | set key value tmo =>
      simp only [Sys.set]
      cases hconv : convert_delay (Option.some s.timeout) s.clock tmo with
      | error err => simp only [hconv]; exact ⟨t, hget, hc⟩
      | ok conv =>
          simp only [hconv]
          exact cancelled_stable_setitem s key value (.num conv) tid t hget hc
  | del key =>
      simp only [Sys.delitem]
      cases hl : lookupA s.storage key with
      | none => simp only [hl]; exact ⟨t, hget, hc⟩
      | some e => simp only [hl]; exact get?_cancelTask_stable hget hc
  | fire tid0 t0 hget0 hcanc0 hdone0 htime0 =>
      simp only [Sys.fireTask, hget0]
      cases hpop : (popA s.storage t0.key).1 <;> simp only [hpop] <;>
        exact get?_markDone_stable hget hc
  | tick d hd => exact ⟨t, hget, hc⟩

theorem cancelled_mono_steps {s s2 : Sys} (hs : Steps s s2) (tid : Nat) (t : TaskRec)
    (hget : s.tasks.get? tid = Option.some t) (hc : t.cancelled = true) :
    ∃ u, s2.tasks.get? tid = Option.some u ∧ u.cancelled = true := by
  induction hs with
  | refl => exact ⟨t, hget, hc⟩
  | tail hsteps hstep ih =>
      obtain ⟨u, hu, hcu⟩ := ih
      exact cancelled_mono_step hstep _ u hu hcu

/-! ### Effect of `__setitem__` on the overwritten and the new entry -/

theorem setitem_cancels_old (s : Sys) (key value : PyVal) (tmo : Delay)
    (e : Entry) (t0 : TaskRec)
    (he : lookupA s.storage key = Option.some e)
    (horig : s.tasks.get? e.task = Option.some t0) :
    ((s.setitem key value tmo).1).tasks.get? e.task =
      Option.some { t0 with cancelled := true } := by
  have hold : (popA s.storage key).1 = Option.some e := by rw [popA_fst]; exact he
  have h1 : (cancelTask s.tasks e.task).get? e.task =
      Option.some { t0 with cancelled := true } := by
    rw [cancelTask, get?_modifyTask, if_pos rfl, horig]; rfl
  simp only [Sys.setitem]
  cases hconv : convert_delay (Option.some s.timeout) s.clock tmo with
  | error err => simp only [hconv, hold]; exact h1
  | ok conv =>
      simp only [hconv, hold]
      rw [get?_append_left ?_]
      · exact h1
      · rw [cancelTask, length_modifyTask]
        exact get?_lt_length horig

theorem setitem_installs (s : Sys) (key value : PyVal) (tmo : Delay) (conv : Int)
    (hconv : convert_delay (Option.some s.timeout) s.clock tmo = Except.ok conv)
    (hnod : (s.storage.map Prod.fst).Nodup) :
    ∃ e2, lookupA ((s.setitem key value tmo).1).storage key = Option.some e2 ∧
      e2.value = value ∧ e2.writtenAt = s.clock ∧
      e2.eff = (if conv = 0 then s.timeout else conv) ∧
      ((s.setitem key value tmo).1).tasks.get? e2.task =
        Option.some ⟨key, s.clock + e2.eff, false, false⟩ := by
  simp only [Sys.setitem, hconv]
  cases hold : (popA s.storage key).1 with
  | none =>
      simp only [hold]
      refine ⟨⟨value, s.tasks.length, s.clock, if conv = 0 then s.timeout else conv⟩,
        ?_, rfl, rfl, rfl, ?_⟩
      · rw [lookupA_append_none (lookupA_popA_self _ _ hnod), lookupA_singleton, if_pos rfl]
      · exact get?_append_length
  | some eold =>
      simp only [hold]
      refine ⟨⟨value, (cancelTask s.tasks eold.task).length, s.clock,
        if conv = 0 then s.timeout else conv⟩, ?_, rfl, rfl, rfl, ?_⟩
      · rw [lookupA_append_none (lookupA_popA_self _ _ hnod), lookupA_singleton, if_pos rfl]
      · exact get?_append_length

/-! ### Reachability of the concrete states -/

theorem reachable_sys0 : Reachable sys0 :=
  Reachable.init 0 (.num 600) sys0 rfl

theorem reachable_sys1 : Reachable sys1 :=
  reachable_sys0.step (Step.setitem sys0 (.str "a") (.int 1) Delay.none)

theorem reachable_sys2 : Reachable sys2 :=
  ((reachable_sys1.step (Step.setitem sys1 (.str "z") (.int 0) Delay.none)).step
    (Step.setitem (sys1.setitem (.str "z") (.int 0) Delay.none).1
      (.str "e") (.str "") Delay.none))

/-! ### Claims -/

/-- C1: in every reachable state, each stored key has exactly one live timer
handle — the entry's own task, which belongs to that key and is scheduled to
fire exactly `eff` time units after the write that installed the entry
(`eff` being the converted per-call timeout if nonzero, else the default);
and `__setitem__` on an existing key cancels the prior entry's handle while
installing a fresh live handle for the new entry. -/
theorem timedCache_unique_live_timer (s : Sys) (hs : Reachable s) :
    (∀ k e, lookupA s.storage k = Option.some e →
      ∃ t, s.tasks.get? e.task = Option.some t ∧ t.key = k ∧ t.cancelled = false ∧
        t.done = false ∧ t.fireAt = e.writtenAt + e.eff ∧
        ∀ tid u, s.tasks.get? tid = Option.some u → u.key = k → u.cancelled = false →
          u.done = false → tid = e.task) ∧
    (∀ key value tmo e t0, lookupA s.storage key = Option.some e →
      s.tasks.get? e.task = Option.some t0 →
      ((s.setitem key value tmo).1).tasks.get? e.task =
        Option.some { t0 with cancelled := true }) ∧
    (∀ key value tmo conv,
      convert_delay (Option.some s.timeout) s.clock tmo = Except.ok conv →
      ∃ e2, lookupA ((s.setitem key value tmo).1).storage key = Option.some e2 ∧
        e2.value = value ∧ e2.writtenAt = s.clock ∧
        e2.eff = (if conv = 0 then s.timeout else conv) ∧
        ((s.setitem key value tmo).1).tasks.get? e2.task =
          Option.some ⟨key, s.clock + e2.eff, false, false⟩) := by
  obtain ⟨⟨hnod, hstore⟩, htask⟩ := cacheInv_reachable hs
  refine ⟨?_, ?_, ?_⟩
  · intro k e hk
    obtain ⟨t, hget, htkey, hcanc, hdone, hfire⟩ := hstore k e hk
    refine ⟨t, hget, htkey, hcanc, hdone, hfire, ?_⟩
    intro tid u hu hukey hucanc hudone
    obtain ⟨e2, he2, het2⟩ := htask tid u hu hucanc hudone
    rw [hukey, hk] at he2
    injection he2 with h3
    rw [← h3] at het2
    exact het2.symm
  · intro key value tmo e t0 he ht0
    exact setitem_cancels_old s key value tmo e t0 he ht0
  · intro key value tmo conv hconv
    exact setitem_installs s key value tmo conv hconv hnod

/-- Witness for C1: the cache `TimedCache(timeout=600)` after `cache["a"] = 1`
has, for the entry at key `"a"`, a single live task, keyed by `"a"`, firing
600 units after the write at time 0. -/
theorem timedCache_unique_live_timer_witness :
    ∃ t, sys1.tasks.get? 0 = Option.some t ∧ t.key = PyVal.str "a" ∧
      t.cancelled = false ∧ t.done = false ∧ t.fireAt = (0 : Int) + 600 ∧
      ∀ tid u, sys1.tasks.get? tid = Option.some u → u.key = PyVal.str "a" →
        u.cancelled = false → u.done = false → tid = 0 :=
  (timedCache_unique_live_timer sys1 reachable_sys1).1 (PyVal.str "a")
    ⟨PyVal.int 1, 0, 0, 600⟩ (by decide)

/-- C2: a fire step (the resumption of `_timed_del` after its sleep) only
ever happens for a live task, and then the entry currently stored under its
key is exactly the entry this timer belongs to: the pop removes that entry
and no other, and raises nothing.  Once a task has been cancelled — which is
what deleting or overwriting its key does — it stays cancelled in every
later reachable state, and `Step.fire` requires `cancelled = false`, so the
stale timer never runs its pop at all: no state change, no error, nothing
surfaced. -/
theorem timedCache_stale_fire_noop (s : Sys) (hs : Reachable s) :
    (∀ tid t, s.tasks.get? tid = Option.some t → t.cancelled = false →
      t.done = false →
      ∃ e, lookupA s.storage t.key = Option.some e ∧ e.task = tid ∧
        (s.fireTask tid).2 = Option.none ∧
        lookupA ((s.fireTask tid).1).storage t.key = Option.none ∧
        ∀ k, k ≠ t.key →
          lookupA ((s.fireTask tid).1).storage k = lookupA s.storage k) ∧
    (∀ tid t s2, s.tasks.get? tid = Option.some t → t.cancelled = true →
      Steps s s2 →
      ∃ u, s2.tasks.get? tid = Option.some u ∧ u.cancelled = true) := by
  obtain ⟨⟨hnod, hstore⟩, htask⟩ := cacheInv_reachable hs
  constructor
  · intro tid t hget hcanc hdone
    obtain ⟨e, he, het⟩ := htask tid t hget hcanc hdone
    have hpop1 : (popA s.storage t.key).1 = Option.some e := by
      rw [popA_fst]; exact he
    refine ⟨e, he, het, ?_, ?_, ?_⟩
    · simp only [Sys.fireTask, hget, hpop1]
    · simp only [Sys.fireTask, hget, hpop1]
      exact lookupA_popA_self _ _ hnod
    · intro k hk
      simp only [Sys.fireTask, hget, hpop1]
      exact lookupA_popA_ne _ _ _ hk
  · intro tid t s2 hget hc hsteps
    exact cancelled_mono_steps hsteps tid t hget hc

/-- Witness for C2: in the cache holding `"a" ↦ 1`, the live task 0 owns the
entry at `"a"`; firing it removes exactly that entry and reports no error. -/
theorem timedCache_stale_fire_noop_witness :
    ∃ e, lookupA sys1.storage (PyVal.str "a") = Option.some e ∧ e.task = 0 ∧
      (sys1.fireTask 0).2 = Option.none ∧
      lookupA ((sys1.fireTask 0).1).storage (PyVal.str "a") = Option.none ∧
      ∀ k, k ≠ PyVal.str "a" →
        lookupA ((sys1.fireTask 0).1).storage k = lookupA sys1.storage k :=
  (timedCache_stale_fire_noop sys1 reachable_sys1).1 0
    ⟨PyVal.str "a", (0 : Int) + 600, false, false⟩ (by decide) rfl rfl

/-- C7: `del cache[key]` on an absent key raises `KeyError` (the spec's
`KeyNotFound`) and leaves the state untouched; on a present key it cancels
the entry's task and removes the entry, and the cancelled handle stays
cancelled through every later step — since a fire step requires an
uncancelled task, the timer never fires for an explicitly deleted key. -/
theorem timedCache_delitem_spec (s : Sys) (key : PyVal) (hs : Reachable s) :
    (lookupA s.storage key = Option.none →
      s.delitem key = (s, Option.some PyErr.keyError)) ∧
    (∀ e t0, lookupA s.storage key = Option.some e →
      s.tasks.get? e.task = Option.some t0 →
      (s.delitem key).2 = Option.none ∧
      lookupA ((s.delitem key).1).storage key = Option.none ∧
      ((s.delitem key).1).tasks.get? e.task =
        Option.some { t0 with cancelled := true } ∧
      ∀ s2, Steps (s.delitem key).1 s2 →
        ∃ u, s2.tasks.get? e.task = Option.some u ∧ u.cancelled = true) := by
  have hnod := (cacheInv_reachable hs).1.1
  constructor
  · intro hl
    simp only [Sys.delitem, hl]
  · intro e t0 he ht0
    have hcanc : ((s.delitem key).1).tasks.get? e.task =
        Option.some { t0 with cancelled := true } := by
      simp only [Sys.delitem, he]
      rw [cancelTask, get?_modifyTask, if_pos rfl, ht0]
      rfl
    refine ⟨?_, ?_, hcanc, ?_⟩
    · simp only [Sys.delitem, he]
    · simp only [Sys.delitem, he, removeA]
      exact lookupA_popA_self _ _ hnod
    · intro s2 hsteps
      exact cancelled_mono_steps hsteps e.task { t0 with cancelled := true } hcanc rfl

/-- Witness for C7: deleting `"a"` from the cache holding `"a" ↦ 1` raises
nothing, removes the key, and leaves task 0 cancelled. -/
theorem timedCache_delitem_spec_witness :
    (sys1.delitem (PyVal.str "a")).2 = Option.none ∧
    lookupA ((sys1.delitem (PyVal.str "a")).1).storage (PyVal.str "a") =
      Option.none ∧
    ((sys1.delitem (PyVal.str "a")).1).tasks.get? 0 =
      Option.some ⟨PyVal.str "a", (0 : Int) + 600, true, false⟩ ∧
    ∀ s2, Steps (sys1.delitem (PyVal.str "a")).1 s2 →
      ∃ u, s2.tasks.get? 0 = Option.some u ∧ u.cancelled = true :=
  (timedCache_delitem_spec sys1 (PyVal.str "a") reachable_sys1).2
    ⟨PyVal.int 1, 0, 0, 600⟩ ⟨PyVal.str "a", (0 : Int) + 600, false, false⟩
    (by decide) (by decide)

/-- C3 counterexample: `get` on an absent key does not return the default
when the default is truthy — the truthiness check hits the default itself
and the code returns `default[0]`: an integer default raises `TypeError`,
a tuple default yields its first element instead of the default. -/
theorem timedCache_get_truthy_default_misbehaves :
    lookupA sys0.storage (PyVal.str "x") = Option.none ∧
    sys0.get (PyVal.str "x") (PyVal.int 5) = Except.error PyErr.typeError ∧
    sys0.get (PyVal.str "x") (PyVal.tuple2 (PyVal.int 7) (PyVal.int 8)) =
      Except.ok (PyVal.int 7) := by decide

/-- C3 amended: `get` returns the stored value when the key is present (the
stored `(value, task)` tuple is always truthy and `value[0]` is the value);
when the key is absent it returns the default only if the default is falsy,
and otherwise subscripts the default (`default[0]`).  Subscript access
`cache[key]` returns the stored value when present and raises `KeyError`
exactly when the key is absent. -/
theorem timedCache_get_getitem_spec (s : Sys) (key default : PyVal) :
    (∀ e, lookupA s.storage key = Option.some e →
      s.get key default = Except.ok e.value ∧
      s.getitem key = Except.ok e.value) ∧
    (lookupA s.storage key = Option.none →
      s.getitem key = Except.error PyErr.keyError ∧
      s.get key default =
        (if default.truthy then default.sub0 else Except.ok default)) := by
  constructor
  · intro e he
    constructor
    · simp only [Sys.get, he, entryPy, PyVal.truthy]
      rfl
    · simp only [Sys.getitem, he, entryPy, PyVal.sub0]
  · intro hn
    constructor
    · simp only [Sys.getitem, hn]
    · simp only [Sys.get, hn]

/-- Witness for C3 (amended): looking up the present key `"a"` returns the
stored `1` through both `get` and subscript access. -/
theorem timedCache_get_getitem_spec_witness :
    sys1.get (PyVal.str "a") PyVal.pynone = Except.ok (PyVal.int 1) ∧
    sys1.getitem (PyVal.str "a") = Except.ok (PyVal.int 1) :=
  (timedCache_get_getitem_spec sys1 (PyVal.str "a") PyVal.pynone).1
    ⟨PyVal.int 1, 0, 0, 600⟩ (by decide)

/-- C4 counterexample: constructing with the negative timeout `-5` succeeds
and stores `-5`; no `ConfigurationError` (or any error) is raised. -/
theorem timedCache_init_accepts_negative :
    TimedCache.init 0 (.num (-5)) =
      Except.ok { timeout := -5, storage := [], tasks := [], clock := 0 } := by decide

/-- C4 amended: construction performs no sign check at all — every nonzero
numeric timeout, negative ones included, yields a cache storing that number
as its default timeout. -/
theorem timedCache_init_no_sign_check (now n : Int) (h : n ≠ 0) :
    TimedCache.init now (.num n) =
      Except.ok { timeout := n, storage := [], tasks := [], clock := now } := by
  simp only [TimedCache.init, convert_delay, if_neg h]

/-- Witness for C4 (amended): `-7` is a nonzero timeout and is accepted. -/
theorem timedCache_init_no_sign_check_witness :
    TimedCache.init 3 (.num (-7)) =
      Except.ok { timeout := -7, storage := [], tasks := [], clock := 3 } :=
  timedCache_init_no_sign_check 3 (-7) (by decide)

/-- C5: `_convert_delay` takes a `timedelta` as its seconds unchanged and an
aware `datetime` as the elapsed seconds since it (negative results are
passed through unclamped in both cases, as the statements are identities on
arbitrary integers), and falls back to the cache default for `None`; but a
*naive* `datetime` raises `TypeError`: aware − naive subtraction raises
`TypeError`, which the `except ValueError` clause does not catch — and the
handler's own expression `(datetime.utcnow - delay)` subtracts from the
un-called function object, itself a `TypeError` — despite the code's comment
"accepts both offset aware and naive timestamps". -/
theorem convert_delay_spec (tmo : Option Int) (now t x d : Int) :
    convert_delay tmo now (.td x) = Except.ok x ∧
    convert_delay tmo now (.dt t true) = Except.ok (now - t) ∧
    convert_delay tmo now (.dt t false) = Except.error PyErr.typeError ∧
    convert_delay (Option.some d) now Delay.none = Except.ok d :=
  ⟨rfl, rfl, rfl, rfl⟩

/-- C6 counterexample: explicitly constructing with timeout `0` (or `None`)
does not fall back to 600 — it raises `AttributeError`, because
`_convert_delay`'s fallback reads `self.timeout` before `__init__` has set
it. -/
theorem timedCache_init_zero_raises :
    TimedCache.init 0 (.num 0) = Except.error PyErr.attributeError ∧
    TimedCache.init 0 Delay.none = Except.error PyErr.attributeError := by decide

/-- C6 amended: the 600-second default applies only through the keyword
default of the omitted argument (`timeout=600`); explicitly passing zero or
`None` makes construction fail with `AttributeError`. -/
theorem timedCache_init_default_only_when_omitted (now : Int) :
    TimedCache.init now (.num 600) =
      Except.ok { timeout := 600, storage := [], tasks := [], clock := now } ∧
    TimedCache.init now (.num 0) = Except.error PyErr.attributeError ∧
    TimedCache.init now Delay.none = Except.error PyErr.attributeError := by
  refine ⟨?_, rfl, rfl⟩
  simp only [TimedCache.init, convert_delay, if_neg (by decide : (600 : Int) ≠ 0)]

/-- C8 counterexample: `__iter__` yields the keys of the snapshot dict, not
`(key, value)` pairs: on the cache holding `"a" ↦ 1` it yields `["a"]`,
which differs from the pair list the specification describes. -/
theorem timedCache_iter_yields_keys_not_pairs :
    sys1.iter = [PyVal.str "a"] ∧
    specIterPairs sys1 = [PyVal.tuple2 (PyVal.str "a") (PyVal.int 1)] ∧
    sys1.iter ≠ specIterPairs sys1 := by decide

/-- C8 amended: `__iter__` returns (a fresh iterator over) exactly the keys
of the storage snapshot, one per live entry, in insertion order, with no
duplicates — values and timer handles are not part of the yielded elements.
Being a materialised snapshot, the yielded sequence is unaffected by
mutations performed after the call. -/
theorem timedCache_iter_snapshot_keys (s : Sys) (hs : Reachable s) :
    s.iter = s.storage.map Prod.fst ∧ s.iter.Nodup ∧
    s.iter.length = s.storage.length := by
  have hnod := (cacheInv_reachable hs).1.1
  exact ⟨rfl, hnod, by simp [Sys.iter]⟩

/-- Witness for C8 (amended) at the one-entry cache. -/
theorem timedCache_iter_snapshot_keys_witness :
    sys1.iter = sys1.storage.map Prod.fst ∧ sys1.iter.Nodup ∧
    sys1.iter.length = sys1.storage.length :=
  timedCache_iter_snapshot_keys sys1 reachable_sys1

/-- C9 counterexample: stored falsy values are *not* invisible to `get`: the
truthiness check applies to the stored `(value, task)` tuple, which is a
non-empty tuple and always truthy, so `get` returns the stored `0` and `""`
rather than the default — at the very inputs the claim names. -/
theorem timedCache_get_returns_falsy_values :
    sys2.get (PyVal.str "z") PyVal.pynone = Except.ok (PyVal.int 0) ∧
    sys2.get (PyVal.str "e") PyVal.pynone = Except.ok (PyVal.str "") ∧
    PyVal.truthy (PyVal.int 0) = false ∧
    PyVal.truthy (PyVal.str "") = false ∧
    sys2.get (PyVal.str "z") (PyVal.int 99) = Except.ok (PyVal.int 0) := by decide

/-- C9 amended: for every present key, whatever the truthiness of its stored
value, `get` returns the stored value — the truthiness test is evaluated on
the stored 2-tuple, never on the value, so no zero-valued entry is hidden.
(The real truthiness defect sits on the absent-key path, where a truthy
default is itself subscripted; that is C3's territory.) -/
theorem timedCache_get_falsy_entry_visible (s : Sys) (key default : PyVal)
    (e : Entry) (he : lookupA s.storage key = Option.some e)
    (_hf : e.value.truthy = false) :
    s.get key default = Except.ok e.value := by
  simp only [Sys.get, he, entryPy, PyVal.truthy]
  rfl

/-- Witness for C9 (amended): the entry `"z" ↦ 0` (value falsy) is returned
by `get` even with a non-`None` default. -/
theorem timedCache_get_falsy_entry_visible_witness :
    sys2.get (PyVal.str "z") (PyVal.str "d") = Except.ok (PyVal.int 0) :=
  timedCache_get_falsy_entry_visible sys2 (PyVal.str "z") (PyVal.str "d")
    ⟨PyVal.int 0, 1, 0, 600⟩ (by decide) (by decide)

/-- C10: `_convert_delay` is the identity on positive numbers (`delay or
self.timeout` returns any nonzero number unchanged), hence converting an
already-converted positive delay changes nothing, and `set` — which converts
the per-call timeout once itself and once more inside `__setitem__` — is
exactly `__setitem__` on the converted value: the double normalization
yields the same effective delay as a single one. -/
theorem convert_delay_idempotent_positive (tmo : Option Int) (now n : Int)
    (s : Sys) (key value : PyVal) (h : 0 < n) :
    convert_delay tmo now (.num n) = Except.ok n ∧
    (∀ c, convert_delay tmo now (.num n) = Except.ok c →
      convert_delay tmo now (.num c) = Except.ok c) ∧
    s.set key value (.num n) = s.setitem key value (.num n) := by
  have hne : n ≠ 0 := ne_of_gt h
  have h1 : convert_delay tmo now (.num n) = Except.ok n := by
    simp only [convert_delay, if_neg hne]
  refine ⟨h1, ?_, ?_⟩
  · intro c hc
    rw [h1] at hc
    injection hc with hc
    subst hc
    exact h1
  · simp only [Sys.set, convert_delay, if_neg hne]

/-- Witness for C10 at the positive delay 5. -/
theorem convert_delay_idempotent_positive_witness :
    convert_delay (Option.some 600) 0 (.num 5) = Except.ok 5 ∧
    (∀ c, convert_delay (Option.some 600) 0 (.num 5) = Except.ok c →
      convert_delay (Option.some 600) 0 (.num c) = Except.ok c) ∧
    sys0.set (PyVal.str "k") (PyVal.int 9) (.num 5) =
      sys0.setitem (PyVal.str "k") (PyVal.int 9) (.num 5) :=
  convert_delay_idempotent_positive (Option.some 600) 0 5 sys0
    (PyVal.str "k") (PyVal.int 9) (by decide)
